import Mathlib

/-!
A verification development for the athena-ballerina migration tool.

The Python sources are shallowly embedded: Python strings are modelled as
`List Char` (compared by code point, as CPython does), Python `int` as `Int`,
`None`-able values as `Option`, and functions that can raise as functions into
a result type with explicit error constructors.  Effectful collaborators (the
query service, the object store, the filesystem) are passed in as explicit
data or oracle functions.
-/

/-- A schema migration record: the `Migration` namedtuple
(`ballerina.py` line 17, fields `migration_id up_digest down_digest up down`).
The script bodies are `Option`al because migrations reconstructed from remote
markers carry `None` there (`ballerina.py` line 280). -/
structure Migration where
  migration_id : Int
  up_digest : List Char
  down_digest : List Char
  up : Option (List Char)
  down : Option (List Char)
deriving DecidableEq, Repr

/-- Python string `<`: lexicographic comparison by code point. -/
def strLt : List Char → List Char → Bool
  | [], [] => false
  | [], _ :: _ => true
  | _ :: _, [] => false
  | a :: as, b :: bs => if a < b then true else if b < a then false else strLt as bs

/-- Comparison of the optional script-body fields when Python compares two
`Migration` namedtuples.  Python only compares these fields when all earlier
fields are equal; comparing `None` with a string would raise `TypeError`, a
case none of the sorts in `ballerina.py` can reach (each sorted list comes
from a single source, so the `up`/`down` fields are all present or all
`None`).  We extend the order totally with `none < some`. -/
def optLt : Option (List Char) → Option (List Char) → Bool
  | none, none => false
  | none, some _ => true
  | some _, none => false
  | some a, some b => strLt a b

/-- One field of a `Migration` namedtuple, as seen by Python tuple comparison. -/
inductive FieldVal where
  | i (v : Int)
  | s (v : List Char)
  | o (v : Option (List Char))
deriving DecidableEq, Repr

/-- Comparison of two tuple fields.  Heterogeneous comparisons would raise
`TypeError` in Python and are unreachable for `Migration` tuples (all five
positions are homogeneous); we return `false` there. -/
def fieldLt : FieldVal → FieldVal → Bool
  | .i a, .i b => decide (a < b)
  | .s a, .s b => strLt a b
  | .o a, .o b => optLt a b
  | .i _, .s _ => false
  | .i _, .o _ => false
  | .s _, .i _ => false
  | .s _, .o _ => false
  | .o _, .i _ => false
  | .o _, .s _ => false

/-- The five fields of a `Migration`, in tuple order. -/
def fieldsOf (m : Migration) : List FieldVal :=
  [.i m.migration_id, .s m.up_digest, .s m.down_digest, .o m.up, .o m.down]

/-- Python tuple `<`: find the first unequal position and compare it there
(for equal-length tuples, which is the only case arising here). -/
def tupLt : List FieldVal → List FieldVal → Bool
  | a :: as, b :: bs => if a = b then tupLt as bs else fieldLt a b
  | _, _ => false

/-- Python `<` on `Migration` namedtuples: tuple comparison of the five fields. -/
def migLt (a b : Migration) : Bool := tupLt (fieldsOf a) (fieldsOf b)

/-- `le` used by ascending `sorted(...)`: `a` may precede `b` iff `¬ (b < a)`. -/
def mig_le (a b : Migration) : Bool := ! migLt b a

/-- `le` used by `sorted(..., reverse=True)`: `a` may precede `b` iff `¬ (a < b)`. -/
def mig_ge (a b : Migration) : Bool := ! migLt a b

/-- Insertion of one element into a sorted list. -/
def py_insert {α : Type} (le : α → α → Bool) (x : α) : List α → List α
  | [] => [x]
  | y :: ys => if le x y then x :: y :: ys else y :: py_insert le x ys

/-- A comparison sort.  Python's `sorted` is a stable comparison sort; over the
total order `migLt` (which compares every field, so elements comparing equal
are equal) every comparison sort computes the same list, so insertion sort is
a faithful model of `sorted`. -/
def py_sort_by {α : Type} (le : α → α → Bool) : List α → List α
  | [] => []
  | x :: xs => py_insert le x (py_sort_by le xs)

/-- `sorted(migrations)` (ascending). -/
def py_sorted (l : List Migration) : List Migration := py_sort_by mig_le l

/-- `sorted(migrations, reverse=True)` (descending). -/
def py_sorted_reverse (l : List Migration) : List Migration := py_sort_by mig_ge l

/-- `first` (ballerina.py 264-268): the first element of an iterable, or
`None` when it is exhausted. -/
def first {α : Type} (xs : List α) : Option α := xs.head?

/-- The divergence search inside `get_diff` (ballerina.py 302-306): the first
remote migration whose `up_digest` differs from the local migration at the
same position of the pairwise `zip` walk. -/
def first_divergence (db_migrations file_system_migrations : List Migration) :
    Option Migration :=
  first (((db_migrations.zip file_system_migrations).filter
    fun p => decide (p.1.up_digest ≠ p.2.up_digest)).map fun p => p.1)

/-- Python `max` over a list of ints.  `max` on an empty list raises in
Python; every call site below guards non-emptiness, so the `[]` value is
arbitrary. -/
def py_max : List Int → Int
  | [] => 0
  | x :: xs => xs.foldl max x

/-- `max_old_id` as computed in the no-divergence branch of `get_diff`
(ballerina.py 314): `0 if not db_migrations else max(m.migration_id ...)`. -/
def max_old_id (db_migrations : List Migration) : Int :=
  if db_migrations.isEmpty then 0
  else py_max (db_migrations.map fun m => m.migration_id)

/-- `get_diff` (ballerina.py 299-316).  `if first_divergence:` in the source
is a `None` test, since a 5-field namedtuple is always truthy. -/
def get_diff (db_migrations file_system_migrations : List Migration) :
    List Migration × List Migration :=
  match first_divergence db_migrations file_system_migrations with
  | some fd =>
    (py_sorted_reverse
        (db_migrations.filter fun m => decide (fd.migration_id ≤ m.migration_id)),
     py_sorted
        (file_system_migrations.filter fun m => decide (fd.migration_id ≤ m.migration_id)))
  | none =>
    ([], py_sorted (file_system_migrations.filter
        fun m => decide (max_old_id db_migrations < m.migration_id)))

/-- The ordering assertion guarding `apply_all` (ballerina.py 148):
`sorted(migrations) == migrations`. -/
def apply_all_assert (migrations : List Migration) : Bool :=
  decide (py_sorted migrations = migrations)

/-- The ordering assertion guarding `unapply_all` (ballerina.py 154):
`sorted(migrations, reverse=True) == migrations`. -/
def unapply_all_assert (migrations : List Migration) : Bool :=
  decide (py_sorted_reverse migrations = migrations)

/-! ### Decimal printing and Python `int()` parsing -/

/-- The decimal digit characters used by Python `str` on an int.  The default
branch is unreachable for arguments below ten. -/
def digitChar : Nat → Char
  | 0 => '0'
  | 1 => '1'
  | 2 => '2'
  | 3 => '3'
  | 4 => '4'
  | 5 => '5'
  | 6 => '6'
  | 7 => '7'
  | 8 => '8'
  | 9 => '9'
  | _ => '*'

/-- Decimal digits of a natural number, most significant first; the first
argument is recursion fuel (any fuel above the number itself suffices). -/
def natDigitsGo : Nat → Nat → List Char
  | 0, _ => []
  | fuel + 1, n =>
    if n < 10 then [digitChar n]
    else natDigitsGo fuel (n / 10) ++ [digitChar (n % 10)]

/-- Python `str` on a non-negative int: its decimal digits. -/
def natDigits (n : Nat) : List Char := natDigitsGo (n + 1) n

/-- Python `str` on an int. -/
def intDecimal (i : Int) : List Char :=
  if i < 0 then '-' :: natDigits i.natAbs else natDigits i.toNat

/-- Numeric value of a digit string (most significant first). -/
def digitsVal (l : List Char) : Nat :=
  l.foldl (fun a c => a * 10 + (c.toNat - 48)) 0

/-- Continuation of `pyDigitsVal?`: consumes digits, allowing a single `_`
between two digits (as Python `int()` does since 3.6). -/
def pyDigitsCore : List Char → Nat → Option Nat
  | [], acc => some acc
  | c :: rest, acc =>
    if c.isDigit then pyDigitsCore rest (acc * 10 + (c.toNat - 48))
    else if c = '_' then
      match rest with
      | [] => none
      | d :: rest2 =>
        if d.isDigit then pyDigitsCore rest2 (acc * 10 + (d.toNat - 48))
        else none
    else none

/-- The digit part accepted by Python `int()`: a non-empty digit string with
optional single underscores between digits. -/
def pyDigitsVal? : List Char → Option Nat
  | [] => none
  | c :: rest => if c.isDigit then pyDigitsCore rest (c.toNat - 48) else none

/-- The whitespace characters stripped by Python `int()` (ASCII subset). -/
def pyWhitespace : List Char := [' ', '\t', '\n', '\r', '\x0B', '\x0C']

/-- Python `str.strip(cs)`: remove characters of the set `cs` from both ends. -/
def py_strip_chars (cs s : List Char) : List Char :=
  ((s.dropWhile fun c => decide (c ∈ cs)).reverse.dropWhile fun c => decide (c ∈ cs)).reverse

/-- Python `int(s)`: strip whitespace, then an optional single sign followed
by digits.  `none` models the `ValueError` raise. -/
def pyInt? (s : List Char) : Option Int :=
  match py_strip_chars pyWhitespace s with
  | '-' :: rest => (pyDigitsVal? rest).map fun n => -(n : Int)
  | '+' :: rest => (pyDigitsVal? rest).map fun n => (n : Int)
  | t => (pyDigitsVal? t).map fun n => (n : Int)

/-! ### The migration definition loader (ballerina.py 25-65) -/

/-- Outcome of `assert_all_migrations_present` together with the error exits
that its helpers can take.  `emptyExit` is the graceful `exit(0)` on an empty
directory (ballerina.py 46-48); `malformedExit` is the `exit(3)` taken inside
`get_migration_id` when a filename has no `_` or a non-integer id prefix
(ballerina.py 25-30); `missingUp`/`missingDown` are the `AssertionError`s of
lines 54-55; `extraFilesExit` is the `exit(3)` of lines 57-65; `ok n` is a
normal return with `max_migration_id = n`. -/
inductive LoadResult where
  | emptyExit
  | malformedExit
  | missingUp (i : Nat)
  | missingDown (i : Nat)
  | extraFilesExit
  | ok (n : Nat)
deriving DecidableEq, Repr

/-- `get_migration_id` (ballerina.py 25-30): the int value of the filename up
to its first `_`; `none` models the `exit(3)` on `ValueError` (no `_`, or a
non-integer prefix). -/
def get_migration_id (file_name : List Char) : Option Int :=
  if '_' ∈ file_name then pyInt? (file_name.takeWhile fun c => decide (c ≠ '_'))
  else none

/-- `get_max_migration_id` (ballerina.py 33-37): maximum of the parsed ids;
any parse failure aborts the whole run. -/
def get_max_migration_id (filenames : List (List Char)) : Option Int :=
  (filenames.mapM get_migration_id).map py_max

/-- `get_migration_files_filtered` (ballerina.py 40-41): keep the names of
regular files whose lower-cased name ends in `.sql`.  The directory is
modelled as the list of its regular files' names. -/
def get_migration_files_filtered (filenames : List (List Char)) : List (List Char) :=
  filenames.filter fun f => decide (".sql".data <:+ (f.map Char.toLower))

/-- The `{i}_up.sql` filename for id `i`. -/
def up_name (i : Nat) : List Char := natDigits i ++ "_up.sql".data

/-- The `{i}_down.sql` filename for id `i`. -/
def down_name (i : Nat) : List Char := natDigits i ++ "_down.sql".data

/-- The assertion loop of ballerina.py 52-55: for each id in `1..max`, the up
file then the down file must be present; the first failing assertion aborts. -/
def check_pairs (filenames : List (List Char)) : List Nat → Option LoadResult
  | [] => none
  | i :: rest =>
    if up_name i ∈ filenames then
      if down_name i ∈ filenames then check_pairs filenames rest
      else some (.missingDown i)
    else some (.missingUp i)

/-- The filenames accounted for by ids `1..n`: exactly the up and down names
(the sets subtracted on ballerina.py 57-61). -/
def expected_filenames (n : Nat) : List (List Char) :=
  ((List.range' 1 n).map up_name) ++ ((List.range' 1 n).map down_name)

/-- `assert_all_migrations_present` (ballerina.py 44-65).  The extra-files
check (a set difference tested for non-emptiness in the source) is modelled
as an `any`-not-expected test, which is equivalent. -/
def assert_all_migrations_present (filenames : List (List Char)) : LoadResult :=
  if filenames.isEmpty then .emptyExit
  else
    match get_max_migration_id filenames with
    | none => .malformedExit
    | some mx =>
      match check_pairs filenames (List.range' 1 mx.toNat) with
      | some r => r
      | none =>
        if filenames.any fun f => decide (f ∉ expected_filenames mx.toNat) then
          .extraFilesExit
        else .ok mx.toNat

/-- Result of the opening of `main` (ballerina.py 118-130). -/
inductive MainOutcome where
  | localAbort (r : LoadResult)
  | remotePhase (remote_listing : List Migration)
deriving DecidableEq, Repr

/-- The control flow of `main` up to the first remote interaction
(ballerina.py 121-127): `assert_all_migrations_present` runs on the local
directory listing first; the remote store (modelled by the `list_remote`
oracle) is consulted only if it returns normally. -/
def main_local_gate (filenames : List (List Char))
    (list_remote : Unit → List Migration) : MainOutcome :=
  match assert_all_migrations_present filenames with
  | .ok _ => .remotePhase (list_remote ())
  | r => .localAbort r

/-! ### Marker keys (ballerina.py 97-111, 163-165) -/

/-- `FILE_DELIM` (ballerina.py 18). -/
def FILE_DELIM : Char := ':'

/-- `get_migration_prefix` (ballerina.py 97-98):
`prefix + ':'.join(str(x) for x in migration[:3])`. -/
def get_migration_prefix (pfx : List Char) (m : Migration) : List Char :=
  pfx ++ List.intercalate [FILE_DELIM]
    [intDecimal m.migration_id, m.up_digest, m.down_digest]

/-- The up-marker key written by `apply_up` (ballerina.py 163-164). -/
def marker_up_key (pfx : List Char) (m : Migration) : List Char :=
  get_migration_prefix pfx m ++ "_up.sql".data

/-- The down-marker key written by `apply_up` (ballerina.py 163-165). -/
def marker_down_key (pfx : List Char) (m : Migration) : List Char :=
  get_migration_prefix pfx m ++ "_down.sql".data

/-- Outcome of `parse_migration_prefix`: a parsed `(id, up_digest,
down_digest)` triple, the `ValueError` raised by `int(migration_parts[0])`
(ballerina.py 109), or the `AssertionError` of the three-part check
(ballerina.py 110). -/
inductive ParseResult where
  | ok (migration_id : Int) (up_digest down_digest : List Char)
  | intValueError
  | corruptMarker
deriving DecidableEq, Repr

/-- Python `str.split(sep)` for a one-character separator. -/
def pySplit (sep : Char) : List Char → List (List Char)
  | [] => [[]]
  | c :: cs =>
    if c = sep then [] :: pySplit sep cs
    else
      match pySplit sep cs with
      | [] => [[c]]
      | p :: ps => (c :: p) :: ps

/-- The stripping steps of `parse_migration_prefix` (ballerina.py 102-107):
drop the prefix when the key starts with it, then one `_up.sql` ending when
present, then one `_down.sql` ending when present.  The value of the local
`filename` variable just before the `split` on line 108. -/
def marker_key_remainder (pfx filename : List Char) : List Char :=
  let f1 := if decide (pfx <+: filename) then filename.drop pfx.length else filename
  let f2 := if decide ("_up.sql".data <:+ f1) then f1.take (f1.length - 7) else f1
  if decide ("_down.sql".data <:+ f2) then f2.take (f2.length - 9) else f2

/-- `parse_migration_prefix` (ballerina.py 101-111): strip prefix and
suffixes (`marker_key_remainder`), split on `:`, convert the first part with
`int`, then assert there are exactly three parts.  Note that the source
converts `migration_parts[0]` with `int` *before* asserting that there are
exactly three parts, and strips an `_up.sql` suffix before trying
`_down.sql`. -/
def parse_migration_prefix (pfx filename : List Char) : ParseResult :=
  match pySplit FILE_DELIM (marker_key_remainder pfx filename) with
  | [] => .corruptMarker
  | p0 :: rest =>
    match pyInt? p0 with
    | none => .intValueError
    | some n =>
      match rest with
      | [p1, p2] => .ok n p1 p2
      | _ => .corruptMarker

/-! ### The query executor (aws_helper.py / ballerina_aws_helper.py) -/

/-- One response of `get_query_execution`, as consumed by the poll loop.
`state` is `QueryExecution.Status.State` when that nested key path exists
(`none` models a response missing it); `query` models the optional `Query`
key; `status_repr` is the `str()` of the `Status` dict, interpolated into
failure messages; `has_reason` models the presence of `StateChangeReason`. -/
structure StatusResponse where
  state : Option (List Char)
  query : Option (List Char)
  has_reason : Bool
  status_repr : List Char
deriving DecidableEq, Repr

/-- Result of one `execute` call.  `stillPolling` marks that the modelled
finite response stream was exhausted while the loop was still going (the real
loop would poll again after one heartbeat). -/
inductive PollResult where
  | success
  | failure (reason : List Char)
  | stillPolling
deriving DecidableEq, Repr

/-- The failure message built by `aws_helper.py` 60-64. -/
def aws_failure_reason (r : StatusResponse) : List Char :=
  let base := "Athena failed to execute query".data
  let base2 := match r.query with
    | some q => base ++ ": ".data ++ q
    | none => base
  if r.has_reason then base2 ++ ". Reason: ".data ++ r.status_repr ++ ".".data
  else base2

/-- The failure message built by `ballerina_aws_helper.py` 62-66. -/
def bal_failure_reason (r : StatusResponse) (state : List Char) : List Char :=
  let base := "Athena set query state to ".data ++ state ++ ". ".data
  let base2 := match r.query with
    | some q => base ++ ": ".data ++ q
    | none => base
  if r.has_reason then base2 ++ ". Reason: ".data ++ r.status_repr ++ ".".data
  else base2

/-- The poll loop of `aws_helper.AthenaInfo.execute` (aws_helper.py 53-68):
`state` starts at `'RUNNING'`; a response without the status keys leaves it
unchanged; a reported `'FAILED'` raises; the loop continues only while the
state is `'RUNNING'`, so any other reported state ends the call normally. -/
def aws_execute_poll : List StatusResponse → PollResult
  | [] => .stillPolling
  | r :: rest =>
    match r.state with
    | none => aws_execute_poll rest
    | some s =>
      if s = "FAILED".data then .failure (aws_failure_reason r)
      else if s = "RUNNING".data then aws_execute_poll rest
      else .success

/-- The poll loop of `ballerina_aws_helper.AthenaInfo.execute`
(ballerina_aws_helper.py 54-67): `state` starts at `'QUEUED'`; a reported
state in `('FAILED', 'CANCELLED')` raises; the loop continues while the state
is in `('QUEUED', 'RUNNING')`; any other reported state ends the call. -/
def bal_execute_poll : List StatusResponse → PollResult
  | [] => .stillPolling
  | r :: rest =>
    match r.state with
    | none => bal_execute_poll rest
    | some s =>
      if s = "FAILED".data ∨ s = "CANCELLED".data then .failure (bal_failure_reason r s)
      else if s = "QUEUED".data ∨ s = "RUNNING".data then bal_execute_poll rest
      else .success

/-- A status response reporting the given state and nothing else. -/
def plainState (s : List Char) : StatusResponse :=
  { state := some s, query := none, has_reason := false, status_repr := [] }

/-- The characters stripped from each statement by `execute_many`
(`q.strip('\n ;')`). -/
def strip_set : List Char := ['\n', ' ', ';']

/-- The statement list built by `execute_many` (aws_helper.py 34, identical
in ballerina_aws_helper.py 35): split the script on `;` and strip each piece. -/
def parse_queries_of (queries : List Char) : List (List Char) :=
  (pySplit ';' queries).map (py_strip_chars strip_set)

/-- The submission loop of `execute_many` (aws_helper.py 35-37, equivalently
ballerina_aws_helper.py 36-38): run the statements in order, skipping empty
ones, stopping at the first `AthenaQueryError`.  `exec1` is the
query-service oracle for a single statement; the result records the
statements actually submitted, in order, and the error that aborted the loop
if any. -/
def run_queries (exec1 : List Char → Except (List Char) Unit) :
    List (List Char) → List (List Char) × Option (List Char)
  | [] => ([], none)
  | q :: qs =>
    if q = [] then run_queries exec1 qs
    else
      match exec1 q with
      | .ok _ =>
        let r := run_queries exec1 qs
        (q :: r.1, r.2)
      | .error e => ([q], some e)

/-- `execute_many` (aws_helper.py 32-37). -/
def execute_many (exec1 : List Char → Except (List Char) Unit)
    (queries : List Char) : List (List Char) × Option (List Char) :=
  run_queries exec1 (parse_queries_of queries)

/-- The non-empty stripped statements of a script: exactly the statements
`execute_many` submits when no statement fails. -/
def script_statements (queries : List Char) : List (List Char) :=
  (parse_queries_of queries).filter fun q => decide (q ≠ [])

/-- An always-succeeding query-service oracle. -/
def alwaysOk : List Char → Except (List Char) Unit := fun _ => .ok ()

/-! ### Concrete example data -/

/-- Remote state for the worked divergence example: ids 1-3 with up-digests
`d1 d2 d3` (marker reconstructions, so no script bodies). -/
def c1_db : List Migration :=
  [⟨1, "d1".data, "b1".data, none, none⟩,
   ⟨2, "d2".data, "b2".data, none, none⟩,
   ⟨3, "d3".data, "b3".data, none, none⟩]

/-- Local state for the worked divergence example: id 1 agrees, ids 2-3 have
changed up-digests `e2 e3`. -/
def c1_fs : List Migration :=
  [⟨1, "d1".data, "c1".data, some "u1".data, some "w1".data⟩,
   ⟨2, "e2".data, "c2".data, some "u2".data, some "w2".data⟩,
   ⟨3, "e3".data, "c3".data, some "u3".data, some "w3".data⟩]

/-- Remote state for the partial-prefix example: ids 1-2. -/
def c2_db : List Migration :=
  [⟨1, "d1".data, "b1".data, none, none⟩,
   ⟨2, "d2".data, "b2".data, none, none⟩]

/-- Local state for the partial-prefix example: ids 1-3, digests agreeing on
the overlap. -/
def c2_fs : List Migration :=
  [⟨1, "d1".data, "c1".data, some "u1".data, some "w1".data⟩,
   ⟨2, "d2".data, "c2".data, some "u2".data, some "w2".data⟩,
   ⟨3, "d3".data, "c3".data, some "u3".data, some "w3".data⟩]

/-- A remote listing holding two distinct markers that share id 1 (as two
corrupt marker keys in the store would produce). -/
def c4_db : List Migration :=
  [⟨1, "a".data, "b".data, none, none⟩,
   ⟨1, "c".data, "d".data, none, none⟩]

/-- A one-migration local state diverging from `c4_db` at id 1. -/
def c4_fs : List Migration :=
  [⟨1, "x".data, "y".data, some "u".data, some "w".data⟩]

/-- Remote state digest-equal to `c9_fs`. -/
def c9_db : List Migration :=
  [⟨1, "d1".data, "b1".data, none, none⟩,
   ⟨2, "d2".data, "b2".data, none, none⟩]

/-- Local state digest-equal to `c9_db` (down-digests and bodies may differ;
only ids and up-digests are compared). -/
def c9_fs : List Migration :=
  [⟨1, "d1".data, "c1".data, some "u1".data, some "w1".data⟩,
   ⟨2, "d2".data, "c2".data, some "u2".data, some "w2".data⟩]

/-- A three-statement script. -/
def c5_script : List Char := "a;b;c".data

/-- A query-service oracle that fails exactly on statement `b`. -/
def c5_exec : List Char → Except (List Char) Unit :=
  fun q => if q = "b".data then .error "boom".data else .ok ()

/-- A directory listing in which migration 2 lacks its down file. -/
def c6_files : List (List Char) :=
  ["1_up.sql".data, "1_down.sql".data, "2_up.sql".data]

/-- A directory listing with the complete pair for id 1 plus the stray file
`0_up.sql` (parseable id, outside `1..max`). -/
def c7_files : List (List Char) :=
  ["1_up.sql".data, "1_down.sql".data, "0_up.sql".data]

/-- A migration whose marker key round-trips. -/
def c8_mig : Migration := ⟨7, "abc".data, "def".data, some "U".data, some "D".data⟩

/-- A bucket prefix for the marker example. -/
def c8_pfx : List Char := "migrations/".data

/-! ### Order properties of the tuple comparison -/

theorem strLt_asymm : ∀ (a b : List Char), strLt a b = true → strLt b a = false
  | [], [], h => by simp [strLt] at h
  | [], _ :: _, _ => by simp [strLt]
  | _ :: _, [], h => by simp [strLt] at h
  | a :: as, b :: bs, h => by
    simp only [strLt] at h ⊢
    by_cases hab : a < b
    · simp [hab, lt_asymm hab]
    · by_cases hba : b < a
      · simp [hab, hba] at h
      · simp only [hab, hba, if_false] at h ⊢
        exact strLt_asymm as bs h

theorem strLt_trans :
    ∀ (a b c : List Char), strLt a b = true → strLt b c = true → strLt a c = true
  | [], [], _, h1, _ => by simp [strLt] at h1
  | [], _ :: _, [], _, h2 => by simp [strLt] at h2
  | [], _ :: _, _ :: _, _, _ => by simp [strLt]
  | _ :: _, [], _, h1, _ => by simp [strLt] at h1
  | _ :: _, _ :: _, [], _, h2 => by simp [strLt] at h2
  | a :: as, b :: bs, c :: cs, h1, h2 => by
    simp only [strLt] at h1 h2 ⊢
    by_cases hab : a < b
    · by_cases hbc : b < c
      · simp [lt_trans hab hbc]
      · by_cases hcb : c < b
        · simp [hbc, hcb] at h2
        · have hbceq : b = c := le_antisymm (not_lt.mp hcb) (not_lt.mp hbc)
          subst hbceq
          simp [hab]
    · by_cases hba : b < a
      · simp [hab, hba] at h1
      · have habeq : a = b := le_antisymm (not_lt.mp hba) (not_lt.mp hab)
        subst habeq
        simp only [lt_irrefl, if_false] at h1
        by_cases hac : a < c
        · simp [hac]
        · by_cases hca : c < a
          · simp [hac, hca] at h2
          · simp only [hac, hca, if_false] at h2 ⊢
            exact strLt_trans as bs cs h1 h2

theorem strLt_eq_of_not :
    ∀ (a b : List Char), strLt a b = false → strLt b a = false → a = b
  | [], [], _, _ => rfl
  | [], _ :: _, h1, _ => by simp [strLt] at h1
  | _ :: _, [], _, h2 => by simp [strLt] at h2
  | a :: as, b :: bs, h1, h2 => by
    simp only [strLt] at h1 h2
    by_cases hab : a < b
    · simp [hab] at h1
    · by_cases hba : b < a
      · simp [hba, lt_asymm hba] at h2
      · have habeq : a = b := le_antisymm (not_lt.mp hba) (not_lt.mp hab)
        subst habeq
        simp only [lt_irrefl, if_false] at h1 h2
        rw [strLt_eq_of_not as bs h1 h2]

theorem optLt_asymm (a b : Option (List Char)) (h : optLt a b = true) :
    optLt b a = false := by
  cases a <;> cases b <;> simp_all [optLt]
  exact strLt_asymm _ _ h

theorem optLt_trans (a b c : Option (List Char)) (h1 : optLt a b = true)
    (h2 : optLt b c = true) : optLt a c = true := by
  cases a <;> cases b <;> cases c <;> simp_all [optLt]
  exact strLt_trans _ _ _ h1 h2

theorem optLt_eq_of_not (a b : Option (List Char)) (h1 : optLt a b = false)
    (h2 : optLt b a = false) : a = b := by
  cases a <;> cases b <;> simp_all [optLt]
  exact strLt_eq_of_not _ _ h1 h2

/-- Two tuple fields of the same kind (Python would raise on mixed kinds). -/
def sameKind : FieldVal → FieldVal → Prop
  | .i _, .i _ => True
  | .s _, .s _ => True
  | .o _, .o _ => True
  | _, _ => False

theorem fieldLt_asymm (a b : FieldVal) (h : fieldLt a b = true) :
    fieldLt b a = false := by
  cases a <;> cases b <;> simp_all [fieldLt]
  · omega
  · exact strLt_asymm _ _ h
  · exact optLt_asymm _ _ h

theorem fieldLt_trans (a b c : FieldVal) (h1 : fieldLt a b = true)
    (h2 : fieldLt b c = true) : fieldLt a c = true := by
  cases a <;> cases b <;> cases c <;> simp_all [fieldLt]
  · omega
  · exact strLt_trans _ _ _ h1 h2
  · exact optLt_trans _ _ _ h1 h2

theorem fieldLt_eq_of_not (a b : FieldVal) (hk : sameKind a b)
    (h1 : fieldLt a b = false) (h2 : fieldLt b a = false) : a = b := by
  cases a <;> cases b <;> simp_all [fieldLt, sameKind]
  · omega
  · exact strLt_eq_of_not _ _ h1 h2
  · exact optLt_eq_of_not _ _ h1 h2

theorem tupLt_asymm : ∀ (a b : List FieldVal), tupLt a b = true → tupLt b a = false
  | [], _, h => by simp [tupLt] at h
  | _ :: _, [], h => by simp [tupLt] at h
  | a :: as, b :: bs, h => by
    simp only [tupLt] at h ⊢
    by_cases hab : a = b
    · subst hab
      simp only [if_pos rfl] at h ⊢
      exact tupLt_asymm as bs h
    · rw [if_neg hab] at h
      rw [if_neg (Ne.symm hab)]
      exact fieldLt_asymm a b h

theorem tupLt_trans :
    ∀ (a b c : List FieldVal), tupLt a b = true → tupLt b c = true → tupLt a c = true
  | [], _, _, h1, _ => by simp [tupLt] at h1
  | _ :: _, [], _, h1, _ => by simp [tupLt] at h1
  | _ :: _, _ :: _, [], _, h2 => by simp [tupLt] at h2
  | a :: as, b :: bs, c :: cs, h1, h2 => by
    simp only [tupLt] at h1 h2 ⊢
    by_cases hab : a = b
    · subst hab
      rw [if_pos rfl] at h1
      by_cases hac : a = c
      · subst hac
        rw [if_pos rfl] at h2 ⊢
        exact tupLt_trans as bs cs h1 h2
      · rw [if_neg hac] at h2 ⊢
        exact h2
    · rw [if_neg hab] at h1
      by_cases hbc : b = c
      · subst hbc
        rw [if_neg hab]
        exact h1
      · rw [if_neg hbc] at h2
        have hlt := fieldLt_trans a b c h1 h2
        have hac : a ≠ c := by
          intro hh
          subst hh
          have := fieldLt_asymm a b h1
          rw [this] at h2
          exact Bool.false_ne_true h2
        rw [if_neg hac]
        exact hlt

theorem tupLt_eq_of_not :
    ∀ (a b : List FieldVal), List.Forall₂ sameKind a b →
      tupLt a b = false → tupLt b a = false → a = b
  | [], [], _, _, _ => rfl
  | a :: as, b :: bs, hk, h1, h2 => by
    simp only [tupLt] at h1 h2
    rcases hk with _ | ⟨hkh, hkt⟩
    by_cases hab : a = b
    · subst hab
      rw [if_pos rfl] at h1 h2
      rw [tupLt_eq_of_not as bs hkt h1 h2]
    · rw [if_neg hab] at h1
      rw [if_neg (Ne.symm hab)] at h2
      exact absurd (fieldLt_eq_of_not a b hkh h1 h2) hab

theorem migLt_asymm (a b : Migration) (h : migLt a b = true) : migLt b a = false :=
  tupLt_asymm _ _ h

theorem migLt_trans (a b c : Migration) (h1 : migLt a b = true)
    (h2 : migLt b c = true) : migLt a c = true :=
  tupLt_trans _ _ _ h1 h2

theorem migLt_eq_of_not (a b : Migration) (h1 : migLt a b = false)
    (h2 : migLt b a = false) : a = b := by
  have hk : List.Forall₂ sameKind (fieldsOf a) (fieldsOf b) := by
    simp [fieldsOf, sameKind]
  have := tupLt_eq_of_not _ _ hk h1 h2
  cases a
  cases b
  simp [fieldsOf] at this
  simp [this]

theorem migLt_true_of_id_lt (a b : Migration)
    (h : a.migration_id < b.migration_id) : migLt a b = true := by
  have hne : FieldVal.i a.migration_id ≠ FieldVal.i b.migration_id := by
    intro hh
    injection hh with hh2
    omega
  simp only [migLt, fieldsOf, tupLt]
  rw [if_neg hne]
  simp [fieldLt, h]

theorem migLt_false_of_id_lt (a b : Migration)
    (h : a.migration_id < b.migration_id) : migLt b a = false :=
  migLt_asymm a b (migLt_true_of_id_lt a b h)

/-! ### Sorting lemmas -/

theorem py_insert_perm {α : Type} (le : α → α → Bool) (x : α) :
    ∀ (l : List α), (py_insert le x l).Perm (x :: l)
  | [] => List.Perm.refl _
  | y :: ys => by
    simp only [py_insert]
    by_cases h : le x y = true
    · rw [if_pos h]
    · rw [if_neg h]
      exact ((py_insert_perm le x ys).cons y).trans (List.Perm.swap x y ys)

theorem py_sort_perm {α : Type} (le : α → α → Bool) :
    ∀ (l : List α), (py_sort_by le l).Perm l
  | [] => List.Perm.refl _
  | x :: xs =>
    (py_insert_perm le x (py_sort_by le xs)).trans ((py_sort_perm le xs).cons x)

theorem py_insert_sorted {α : Type} (le : α → α → Bool)
    (htot : ∀ a b, le a b = true ∨ le b a = true)
    (htr : ∀ a b c, le a b = true → le b c = true → le a c = true)
    (x : α) : ∀ (l : List α), l.Pairwise (fun a b => le a b = true) →
      (py_insert le x l).Pairwise (fun a b => le a b = true)
  | [], _ => by simp [py_insert]
  | y :: ys, hl => by
    simp only [py_insert]
    by_cases h : le x y = true
    · rw [if_pos h]
      refine List.Pairwise.cons ?_ hl
      intro z hz
      rcases List.mem_cons.mp hz with rfl | hz2
      · exact h
      · exact htr x y z h (List.rel_of_pairwise_cons hl hz2)
    · rw [if_neg h]
      have hyx : le y x = true := (htot x y).resolve_left h
      refine List.Pairwise.cons ?_ (py_insert_sorted le htot htr x ys hl.of_cons)
      intro z hz
      have hz2 := (py_insert_perm le x ys).mem_iff.mp hz
      rcases List.mem_cons.mp hz2 with rfl | hz3
      · exact hyx
      · exact List.rel_of_pairwise_cons hl hz3

theorem py_sort_sorted {α : Type} (le : α → α → Bool)
    (htot : ∀ a b, le a b = true ∨ le b a = true)
    (htr : ∀ a b c, le a b = true → le b c = true → le a c = true) :
    ∀ (l : List α), (py_sort_by le l).Pairwise (fun a b => le a b = true)
  | [] => List.Pairwise.nil
  | x :: xs => py_insert_sorted le htot htr x _ (py_sort_sorted le htot htr xs)

theorem py_sort_of_sorted {α : Type} (le : α → α → Bool) :
    ∀ (l : List α), l.Pairwise (fun a b => le a b = true) → py_sort_by le l = l
  | [], _ => rfl
  | x :: xs, h => by
    simp only [py_sort_by]
    rw [py_sort_of_sorted le xs h.of_cons]
    cases xs with
    | nil => rfl
    | cons y ys =>
      simp only [py_insert]
      rw [if_pos (List.rel_of_pairwise_cons h (List.mem_cons_self y ys))]

theorem py_sort_unique {α : Type} (le : α → α → Bool)
    (hanti : ∀ a b, le a b = true → le b a = true → a = b)
    (l₁ l₂ : List α) (hp : l₁.Perm l₂)
    (h₁ : l₁.Pairwise fun a b => le a b = true)
    (h₂ : l₂.Pairwise fun a b => le a b = true) : l₁ = l₂ := by
  haveI : IsAntisymm α (fun a b => le a b = true) := ⟨hanti⟩
  exact List.eq_of_perm_of_sorted hp h₁ h₂

theorem mig_le_total (a b : Migration) : mig_le a b = true ∨ mig_le b a = true := by
  rcases Bool.eq_false_or_eq_true (migLt b a) with h | h
  · right
    simp [mig_le, migLt_asymm b a h]
  · left
    simp [mig_le, h]

theorem mig_le_trans (a b c : Migration) (h1 : mig_le a b = true)
    (h2 : mig_le b c = true) : mig_le a c = true := by
  simp only [mig_le, Bool.not_eq_true'] at h1 h2 ⊢
  by_contra hca
  rw [Bool.not_eq_false] at hca
  rcases Bool.eq_false_or_eq_true (migLt a b) with hab | hab
  · have := migLt_trans c a b hca hab
    rw [this] at h2
    exact Bool.noConfusion h2
  · have hab2 : a = b := migLt_eq_of_not a b hab h1
    subst hab2
    rw [hca] at h2
    exact Bool.noConfusion h2

theorem mig_le_antisymm (a b : Migration) (h1 : mig_le a b = true)
    (h2 : mig_le b a = true) : a = b := by
  simp only [mig_le, Bool.not_eq_true'] at h1 h2
  exact migLt_eq_of_not a b h2 h1

theorem mig_ge_total (a b : Migration) : mig_ge a b = true ∨ mig_ge b a = true := by
  rcases Bool.eq_false_or_eq_true (migLt a b) with h | h
  · right
    simp [mig_ge, migLt_asymm a b h]
  · left
    simp [mig_ge, h]

theorem mig_ge_trans (a b c : Migration) (h1 : mig_ge a b = true)
    (h2 : mig_ge b c = true) : mig_ge a c = true := by
  simp only [mig_ge, Bool.not_eq_true'] at h1 h2 ⊢
  by_contra hac
  rw [Bool.not_eq_false] at hac
  rcases Bool.eq_false_or_eq_true (migLt c b) with hcb | hcb
  · have := migLt_trans a c b hac hcb
    rw [this] at h1
    exact Bool.noConfusion h1
  · have hbc : b = c := migLt_eq_of_not b c h2 hcb
    subst hbc
    rw [hac] at h1
    exact Bool.noConfusion h1

theorem mig_ge_antisymm (a b : Migration) (h1 : mig_ge a b = true)
    (h2 : mig_ge b a = true) : a = b := by
  simp only [mig_ge, Bool.not_eq_true'] at h1 h2
  exact migLt_eq_of_not a b h1 h2

theorem ascending_pairwise_mig_le {l : List Migration}
    (h : l.Pairwise fun a b => a.migration_id < b.migration_id) :
    l.Pairwise fun a b => mig_le a b = true :=
  h.imp fun hab => by simp [mig_le, migLt_false_of_id_lt _ _ hab]

theorem py_sorted_of_ascending {l : List Migration}
    (h : l.Pairwise fun a b => a.migration_id < b.migration_id) :
    py_sorted l = l :=
  py_sort_of_sorted mig_le l (ascending_pairwise_mig_le h)

theorem descending_pairwise_mig_ge {l : List Migration}
    (h : l.Pairwise fun a b => b.migration_id < a.migration_id) :
    l.Pairwise fun a b => mig_ge a b = true :=
  h.imp fun hab => by simp [mig_ge, migLt_false_of_id_lt _ _ hab]

theorem py_sorted_reverse_of_ascending {l : List Migration}
    (h : l.Pairwise fun a b => a.migration_id < b.migration_id) :
    py_sorted_reverse l = l.reverse := by
  apply py_sort_unique mig_ge mig_ge_antisymm
  · exact (py_sort_perm mig_ge l).trans (List.reverse_perm l).symm
  · exact py_sort_sorted mig_ge mig_ge_total mig_ge_trans l
  · refine List.pairwise_reverse.mpr ?_
    exact h.imp fun hab => by simp [mig_ge, migLt_false_of_id_lt _ _ hab]

/-! ### Locating the divergence point -/

theorem first_divergence_of_min :
    ∀ (db fs : List Migration) (i : Nat) (hi : i < db.length) (hif : i < fs.length),
      (db.get ⟨i, hi⟩).up_digest ≠ (fs.get ⟨i, hif⟩).up_digest →
      (∀ (j : Nat) (hj : j < db.length) (hjf : j < fs.length), j < i →
        (db.get ⟨j, hj⟩).up_digest = (fs.get ⟨j, hjf⟩).up_digest) →
      first_divergence db fs = some (db.get ⟨i, hi⟩)
  | d :: db', f :: fs', 0, hi, hif, hdiff, _ => by
    simp only [List.get] at hdiff
    simp [first_divergence, first, List.zip_cons_cons, List.filter_cons, hdiff]
  | d :: db', f :: fs', i + 1, hi, hif, hdiff, hmin => by
    have hi' : i < db'.length := by
      simp only [List.length_cons] at hi
      omega
    have hif' : i < fs'.length := by
      simp only [List.length_cons] at hif
      omega
    have h0 : d.up_digest = f.up_digest := by
      simpa using hmin 0 (by simp) (by simp) (Nat.succ_pos i)
    have ih := first_divergence_of_min db' fs' i hi' hif' (by simpa using hdiff)
      (fun j hj hjf hlt => by
        simpa using hmin (j + 1) (by simp only [List.length_cons]; omega)
          (by simp only [List.length_cons]; omega) (Nat.succ_lt_succ hlt))
    calc first_divergence (d :: db') (f :: fs')
        = first_divergence db' fs' := by
          simp [first_divergence, first, List.zip_cons_cons, List.filter_cons, h0]
      _ = some (db'.get ⟨i, hi'⟩) := ih
      _ = some ((d :: db').get ⟨i + 1, hi⟩) := by simp

theorem first_divergence_eq_none :
    ∀ (db fs : List Migration),
      (∀ (i : Nat) (hi : i < db.length) (hif : i < fs.length),
        (db.get ⟨i, hi⟩).up_digest = (fs.get ⟨i, hif⟩).up_digest) →
      first_divergence db fs = none
  | [], _, _ => rfl
  | _ :: _, [], _ => rfl
  | d :: db', f :: fs', h => by
    have h0 : d.up_digest = f.up_digest := by
      simpa using h 0 (by simp) (by simp)
    have ih := first_divergence_eq_none db' fs' (fun i hi hif => by
      simpa using h (i + 1) (by simp only [List.length_cons]; omega)
        (by simp only [List.length_cons]; omega))
    simpa [first_divergence, first, List.zip_cons_cons, List.filter_cons, h0] using ih

/-! ### Facts about `py_max` -/

theorem le_foldl_max : ∀ (l : List Int) (a : Int), a ≤ l.foldl max a
  | [], a => le_refl a
  | b :: bs, a => le_trans (le_max_left a b) (le_foldl_max bs (max a b))

theorem mem_le_foldl_max : ∀ (l : List Int) (a x : Int), x ∈ l → x ≤ l.foldl max a
  | [], _, _, hx => by simp at hx
  | b :: bs, a, x, hx => by
    rcases List.mem_cons.mp hx with rfl | hx2
    · exact le_trans (le_max_right a x) (le_foldl_max bs (max a x))
    · exact mem_le_foldl_max bs (max a b) x hx2

theorem le_py_max (x : Int) (l : List Int) (hx : x ∈ l) : x ≤ py_max l := by
  cases l with
  | nil => simp at hx
  | cons y ys =>
    rcases List.mem_cons.mp hx with rfl | hx2
    · exact le_foldl_max ys x
    · exact mem_le_foldl_max ys y x hx2

/-! ### Claim theorems: the divergence resolver -/

/-- C1: for ascending-sorted inputs with a first positional up-digest
mismatch at index `i`, `get_diff` returns rollback = the remote migrations
with id at least that of the remote migration at index `i`, sorted descending
(the reverse of the ascending input's filter), and apply = the local
migrations with id at least that bound, sorted ascending. -/
theorem get_diff_divergence_branch (db fs : List Migration)
    (hdb : db.Pairwise fun a b => a.migration_id < b.migration_id)
    (hfs : fs.Pairwise fun a b => a.migration_id < b.migration_id)
    (i : Nat) (hi : i < db.length) (hif : i < fs.length)
    (hdiff : (db.get ⟨i, hi⟩).up_digest ≠ (fs.get ⟨i, hif⟩).up_digest)
    (hmin : ∀ (j : Nat) (hj : j < db.length) (hjf : j < fs.length), j < i →
      (db.get ⟨j, hj⟩).up_digest = (fs.get ⟨j, hjf⟩).up_digest) :
    get_diff db fs =
      ((db.filter fun m =>
          decide ((db.get ⟨i, hi⟩).migration_id ≤ m.migration_id)).reverse,
       fs.filter fun m =>
          decide ((db.get ⟨i, hi⟩).migration_id ≤ m.migration_id)) := by
  have hfd := first_divergence_of_min db fs i hi hif hdiff hmin
  simp only [get_diff, hfd]
  rw [py_sorted_reverse_of_ascending (hdb.filter _),
    py_sorted_of_ascending (hfs.filter _)]

/-- Witness for C1: the worked example of the claim — rollback ids `[3, 2]`,
apply ids `[2, 3]`, migration 1 untouched. -/
theorem get_diff_divergence_branch_witness :
    ((get_diff c1_db c1_fs).1.map fun m => m.migration_id) = [3, 2] ∧
    ((get_diff c1_db c1_fs).2.map fun m => m.migration_id) = [2, 3] := by
  have h := get_diff_divergence_branch c1_db c1_fs (by decide) (by decide) 1
    (by decide) (by decide) (by decide)
    (fun j hj hjf hlt => by
      have hj0 : j = 0 := by omega
      subst hj0
      rfl)
  rw [h]
  exact ⟨by decide, by decide⟩

/-- C2: for ascending-sorted inputs with no positional up-digest mismatch,
`get_diff` returns an empty rollback and apply = the local migrations with id
strictly greater than the maximum remote id (`0` for an empty remote), in
ascending order; in particular trailing remote-only migrations are never
rolled back. -/
theorem get_diff_no_divergence (db fs : List Migration)
    (hdb : db.Pairwise fun a b => a.migration_id < b.migration_id)
    (hfs : fs.Pairwise fun a b => a.migration_id < b.migration_id)
    (hagree : ∀ (i : Nat) (hi : i < db.length) (hif : i < fs.length),
      (db.get ⟨i, hi⟩).up_digest = (fs.get ⟨i, hif⟩).up_digest) :
    get_diff db fs =
      ([], fs.filter fun m => decide (max_old_id db < m.migration_id)) := by
  have hfd := first_divergence_eq_none db fs hagree
  simp only [get_diff, hfd]
  rw [py_sorted_of_ascending (hfs.filter _)]

/-- Witness for C2: the partial-prefix example — remote `[1, 2]`, local
`[1, 2, 3]`, no mismatch, so rollback is empty and apply is `[3]`. -/
theorem get_diff_no_divergence_witness :
    (get_diff c2_db c2_fs).1 = [] ∧
    ((get_diff c2_db c2_fs).2.map fun m => m.migration_id) = [3] := by
  have h := get_diff_no_divergence c2_db c2_fs (by decide) (by decide)
    (fun i hi hif => by
      match i, hi, hif with
      | 0, _, _ => rfl
      | 1, _, _ => rfl)
  rw [h]
  exact ⟨rfl, by decide⟩

/-- C9: when remote and local agree position-by-position on ids and
up-digests (in particular immediately after applying the apply set),
`get_diff` returns an empty rollback set and an empty apply set. -/
theorem get_diff_idempotent (db fs : List Migration)
    (hdb : db.Pairwise fun a b => a.migration_id < b.migration_id)
    (hfs : fs.Pairwise fun a b => a.migration_id < b.migration_id)
    (hlen : db.length = fs.length)
    (hids : ∀ (i : Nat) (hi : i < db.length) (hif : i < fs.length),
      (db.get ⟨i, hi⟩).migration_id = (fs.get ⟨i, hif⟩).migration_id)
    (hdig : ∀ (i : Nat) (hi : i < db.length) (hif : i < fs.length),
      (db.get ⟨i, hi⟩).up_digest = (fs.get ⟨i, hif⟩).up_digest) :
    get_diff db fs = ([], []) := by
  have hfd := first_divergence_eq_none db fs hdig
  simp only [get_diff, hfd]
  have hfilter :
      (fs.filter fun m => decide (max_old_id db < m.migration_id)) = [] := by
    rw [List.filter_eq_nil_iff]
    intro m hm
    simp only [decide_eq_true_eq, not_lt]
    rcases List.mem_iff_get.mp hm with ⟨n, rfl⟩
    have hlen2 : (n : Nat) < db.length := by
      rw [hlen]
      exact n.isLt
    have hid := hids n hlen2 n.isLt
    rw [← hid]
    have hne : db.isEmpty = false := by
      cases db with
      | nil => simp at hlen2
      | cons _ _ => rfl
    have hmem : (db.get ⟨n, hlen2⟩).migration_id ∈
        db.map fun m => m.migration_id :=
      List.mem_map_of_mem _ (db.get_mem _ _)
    simp only [max_old_id, hne, Bool.false_eq_true, if_false]
    exact le_py_max _ _ hmem
  rw [hfilter]
  rfl

/-- Witness for C9: a digest-equal remote/local pair yields `([], [])`. -/
theorem get_diff_idempotent_witness : get_diff c9_db c9_fs = ([], []) := by
  exact get_diff_idempotent c9_db c9_fs (by decide) (by decide) (by decide)
    (fun i hi hif => by
      match i, hi, hif with
      | 0, _, _ => rfl
      | 1, _, _ => rfl)
    (fun i hi hif => by
      match i, hi, hif with
      | 0, _, _ => rfl
      | 1, _, _ => rfl)

/-- C4 (amended): for inputs with strictly ascending ids, `get_diff`'s
rollback set is strictly descending by id and its apply set strictly
ascending by id, and the (non-strict) sortedness assertions guarding
`apply_all` and `unapply_all` accept the two sets, so those error branches
are unreachable on resolver output. -/
theorem get_diff_executor_ordering (db fs : List Migration)
    (hdb : db.Pairwise fun a b => a.migration_id < b.migration_id)
    (hfs : fs.Pairwise fun a b => a.migration_id < b.migration_id) :
    ((get_diff db fs).1.Pairwise fun a b => b.migration_id < a.migration_id) ∧
    ((get_diff db fs).2.Pairwise fun a b => a.migration_id < b.migration_id) ∧
    unapply_all_assert (get_diff db fs).1 = true ∧
    apply_all_assert (get_diff db fs).2 = true := by
  cases hfd : first_divergence db fs with
  | some fd =>
    have hg : get_diff db fs =
        ((db.filter fun m => decide (fd.migration_id ≤ m.migration_id)).reverse,
         fs.filter fun m => decide (fd.migration_id ≤ m.migration_id)) := by
      simp only [get_diff, hfd]
      rw [py_sorted_reverse_of_ascending (hdb.filter _),
        py_sorted_of_ascending (hfs.filter _)]
    rw [hg]
    have h1 := hdb.filter fun m => decide (fd.migration_id ≤ m.migration_id)
    have h2 := hfs.filter fun m => decide (fd.migration_id ≤ m.migration_id)
    refine ⟨List.pairwise_reverse.mpr h1, h2, ?_, ?_⟩
    · simp only [unapply_all_assert, decide_eq_true_eq]
      exact py_sort_of_sorted mig_ge _
        (descending_pairwise_mig_ge (List.pairwise_reverse.mpr h1))
    · simp only [apply_all_assert, decide_eq_true_eq]
      exact py_sort_of_sorted mig_le _ (ascending_pairwise_mig_le h2)
  | none =>
    have hg : get_diff db fs =
        ([], fs.filter fun m => decide (max_old_id db < m.migration_id)) := by
      simp only [get_diff, hfd]
      rw [py_sorted_of_ascending (hfs.filter _)]
    rw [hg]
    have h2 := hfs.filter fun m => decide (max_old_id db < m.migration_id)
    refine ⟨List.Pairwise.nil, h2, rfl, ?_⟩
    simp only [apply_all_assert, decide_eq_true_eq]
    exact py_sort_of_sorted mig_le _ (ascending_pairwise_mig_le h2)

/-- Witness for C4: on the worked divergence example the rollback set is
strictly descending, the apply set strictly ascending, and both executor
assertions accept. -/
theorem get_diff_executor_ordering_witness :
    ((get_diff c1_db c1_fs).1.Pairwise fun a b => b.migration_id < a.migration_id) ∧
    ((get_diff c1_db c1_fs).2.Pairwise fun a b => a.migration_id < b.migration_id) ∧
    unapply_all_assert (get_diff c1_db c1_fs).1 = true ∧
    apply_all_assert (get_diff c1_db c1_fs).2 = true :=
  get_diff_executor_ordering c1_db c1_fs (by decide) (by decide)

/-- Counterexample for C4 as frozen: for the input pair `(c4_db, c4_fs)` —
remote carrying two markers that share id 1, local diverging there — the
rollback set `get_diff` returns is not strictly descending by id (it repeats
id 1), although the executor's non-strict assertion still accepts it. -/
theorem get_diff_strict_ordering_cex :
    ¬ ((get_diff c4_db c4_fs).1.Pairwise fun a b => b.migration_id < a.migration_id) := by
  decide

/-! ### Claim theorems: the query executor -/

/-- C3 evaluation: the poll loop the tool actually imports
(`aws_helper.AthenaInfo.execute`, shipped by setup.py) leaves its loop and
reports success on `QUEUED` and on `CANCELLED`, while the sibling
`ballerina_aws_helper.AthenaInfo.execute` — which matches the specified
behaviour — keeps polling on `QUEUED`/`RUNNING`, raises with a reason on
`FAILED`/`CANCELLED`, and succeeds exactly on a non-running non-failure
state such as `SUCCEEDED`. -/
theorem athena_poll_state_handling :
    (∀ rest : List StatusResponse,
      aws_execute_poll (plainState "QUEUED".data :: rest) = .success) ∧
    (∀ rest : List StatusResponse,
      aws_execute_poll (plainState "CANCELLED".data :: rest) = .success) ∧
    (∀ rest : List StatusResponse,
      aws_execute_poll (plainState "RUNNING".data :: rest) = aws_execute_poll rest) ∧
    (∀ rest : List StatusResponse,
      aws_execute_poll (plainState "SUCCEEDED".data :: rest) = .success) ∧
    (∀ rest : List StatusResponse,
      aws_execute_poll (plainState "FAILED".data :: rest)
        = .failure "Athena failed to execute query".data) ∧
    (∀ rest : List StatusResponse,
      bal_execute_poll (plainState "QUEUED".data :: rest) = bal_execute_poll rest) ∧
    (∀ rest : List StatusResponse,
      bal_execute_poll (plainState "RUNNING".data :: rest) = bal_execute_poll rest) ∧
    (∀ rest : List StatusResponse,
      bal_execute_poll (plainState "SUCCEEDED".data :: rest) = .success) ∧
    (∀ rest : List StatusResponse,
      bal_execute_poll (plainState "FAILED".data :: rest)
        = .failure "Athena set query state to FAILED. ".data) ∧
    (∀ rest : List StatusResponse,
      bal_execute_poll (plainState "CANCELLED".data :: rest)
        = .failure "Athena set query state to CANCELLED. ".data) := by
  refine ⟨fun rest => ?_, fun rest => ?_, fun rest => ?_, fun rest => ?_,
    fun rest => ?_, fun rest => ?_, fun rest => ?_, fun rest => ?_,
    fun rest => ?_, fun rest => ?_⟩ <;> rfl

/-! ### Claim theorems: `execute_many` -/

theorem run_queries_filter (exec1 : List Char → Except (List Char) Unit) :
    ∀ (l : List (List Char)),
      run_queries exec1 l = run_queries exec1 (l.filter fun q => decide (q ≠ []))
  | [] => rfl
  | q :: qs => by
    by_cases hq : q = []
    · subst hq
      exact run_queries_filter exec1 qs
    · simp only [run_queries, if_neg hq, List.filter_cons]
      rw [if_pos (by simp [hq])]
      simp only [run_queries, if_neg hq]
      cases exec1 q with
      | ok u => rw [run_queries_filter exec1 qs]
      | error e => rfl

theorem run_queries_take :
    ∀ (l : List (List Char)) (exec1 : List Char → Except (List Char) Unit)
      (k : Nat) (hk : k < l.length),
      (∀ q ∈ l, q ≠ []) →
      ∀ (e : List Char), exec1 (l.get ⟨k, hk⟩) = .error e →
      (∀ (j : Nat) (hj : j < l.length), j < k → exec1 (l.get ⟨j, hj⟩) = .ok ()) →
      run_queries exec1 l = (l.take (k + 1), some e)
  | q :: qs, exec1, 0, hk, hne, e, hfail, _ => by
    have hq : q ≠ [] := hne q (List.mem_cons_self q qs)
    simp only [List.get] at hfail
    simp [run_queries, if_neg hq, hfail]
  | q :: qs, exec1, k + 1, hk, hne, e, hfail, hok => by
    have hq : q ≠ [] := hne q (List.mem_cons_self q qs)
    have h0 : exec1 q = .ok () := by
      simpa using hok 0 (by simp) (Nat.succ_pos k)
    have hk' : k < qs.length := by
      simp only [List.length_cons] at hk
      omega
    have ih := run_queries_take qs exec1 k hk'
      (fun x hx => hne x (List.mem_cons_of_mem q hx)) e (by simpa using hfail)
      (fun j hj hlt => by
        simpa using hok (j + 1) (by simp only [List.length_cons]; omega)
          (Nat.succ_lt_succ hlt))
    simp [run_queries, if_neg hq, h0, ih]

/-- C5: `execute_many` submits the script's non-empty stripped statements in
order; if the statement at (zero-based) position `k` is the first to raise,
the submitted statements are exactly the first `k + 1` (so statements before
`k` have already run and are not undone, and statements after `k` are never
submitted), and the error is propagated. -/
theorem execute_many_fail_fast (script : List Char)
    (exec1 : List Char → Except (List Char) Unit)
    (k : Nat) (hk : k < (script_statements script).length)
    (e : List Char)
    (hfail : exec1 ((script_statements script).get ⟨k, hk⟩) = .error e)
    (hok : ∀ (j : Nat) (hj : j < (script_statements script).length), j < k →
      exec1 ((script_statements script).get ⟨j, hj⟩) = .ok ()) :
    execute_many exec1 script = ((script_statements script).take (k + 1), some e) := by
  rw [execute_many, run_queries_filter]
  exact run_queries_take _ exec1 k hk
    (fun q hq => by
      have := List.of_mem_filter hq
      simpa using this)
    e hfail hok

/-- Witness for C5: in `a;b;c` with `b` failing, exactly `a` then `b` are
submitted and the error is reported; `c` is never submitted. -/
theorem execute_many_fail_fast_witness :
    execute_many c5_exec c5_script = (["a".data, "b".data], some "boom".data) := by
  have h := execute_many_fail_fast c5_script c5_exec 1 (by decide) "boom".data
    (by rfl)
    (fun j hj hlt => by
      have hj0 : j = 0 := by omega
      subst hj0
      rfl)
  rw [h]
  rfl

theorem run_queries_all_ok :
    ∀ (l : List (List Char)),
      run_queries alwaysOk l = (l.filter fun q => decide (q ≠ []), none)
  | [] => rfl
  | q :: qs => by
    by_cases hq : q = []
    · subst hq
      exact run_queries_all_ok qs
    · simp only [run_queries, if_neg hq, List.filter_cons]
      rw [if_pos (by simp [hq])]
      simp [alwaysOk, run_queries_all_ok qs]

theorem run_queries_isPrefix (exec1 : List Char → Except (List Char) Unit) :
    ∀ (l : List (List Char)),
      (run_queries exec1 l).1 <+: (l.filter fun q => decide (q ≠ []))
  | [] => List.nil_prefix
  | q :: qs => by
    by_cases hq : q = []
    · subst hq
      exact run_queries_isPrefix exec1 qs
    · simp only [run_queries, if_neg hq, List.filter_cons]
      rw [if_pos (by simp [hq])]
      cases exec1 q with
      | ok u =>
        exact (List.cons_prefix_cons).mpr ⟨rfl, run_queries_isPrefix exec1 qs⟩
      | error e =>
        exact (List.cons_prefix_cons).mpr ⟨rfl, List.nil_prefix⟩

/-- C10: `execute_many` splits on `;`, strips `'\n'`, `' '` and `';'` from
both ends of each piece, and submits exactly the pieces that are non-empty
after stripping, in order (shown for a run where no statement fails); with an
arbitrary oracle the submitted list is a prefix of those pieces and an empty
piece is never submitted. -/
theorem execute_many_statements (script : List Char) :
    execute_many alwaysOk script = (script_statements script, none) ∧
    ∀ (exec1 : List Char → Except (List Char) Unit),
      (execute_many exec1 script).1 <+: script_statements script ∧
      [] ∉ (execute_many exec1 script).1 := by
  constructor
  · rw [execute_many, run_queries_all_ok]
    rfl
  · intro exec1
    constructor
    · exact run_queries_isPrefix exec1 (parse_queries_of script)
    · intro hmem
      have hmem2 := (run_queries_isPrefix exec1 (parse_queries_of script)).subset hmem
      have := List.of_mem_filter hmem2
      simp at this

/-! ### Claim theorems: the migration definition loader -/

theorem check_pairs_none_of_present (files : List (List Char)) :
    ∀ (l : List Nat), (∀ i ∈ l, up_name i ∈ files ∧ down_name i ∈ files) →
      check_pairs files l = none
  | [], _ => rfl
  | i :: rest, h => by
    have hi := h i (List.mem_cons_self i rest)
    simp only [check_pairs, if_pos hi.1, if_pos hi.2]
    exact check_pairs_none_of_present files rest
      (fun j hj => h j (List.mem_cons_of_mem i hj))

theorem check_pairs_finds (files : List (List Char)) :
    ∀ (l : List Nat) (i : Nat), i ∈ l →
      (up_name i ∉ files ∨ down_name i ∉ files) →
      ∃ j ∈ l, check_pairs files l = some (.missingUp j) ∨
        check_pairs files l = some (.missingDown j)
  | [], i, hmem, _ => by simp at hmem
  | k :: rest, i, hmem, hmiss => by
    by_cases hup : up_name k ∈ files
    · by_cases hdown : down_name k ∈ files
      · have hik : i ≠ k := by
          rintro rfl
          rcases hmiss with h | h
          · exact h hup
          · exact h hdown
        have hirest : i ∈ rest := by
          rcases List.mem_cons.mp hmem with rfl | hr
          · exact absurd rfl hik
          · exact hr
        rcases check_pairs_finds files rest i hirest hmiss with ⟨j, hj, hcp⟩
        refine ⟨j, List.mem_cons_of_mem k hj, ?_⟩
        simpa only [check_pairs, if_pos hup, if_pos hdown] using hcp
      · exact ⟨k, List.mem_cons_self k rest,
          Or.inr (by simp only [check_pairs, if_pos hup, if_neg hdown])⟩
    · exact ⟨k, List.mem_cons_self k rest,
        Or.inl (by simp only [check_pairs, if_neg hup])⟩

theorem check_pairs_none_inv (files : List (List Char)) :
    ∀ (l : List Nat), check_pairs files l = none →
      ∀ i ∈ l, up_name i ∈ files ∧ down_name i ∈ files
  | [], _, i, hi => by simp at hi
  | k :: rest, h, i, hi => by
    by_cases hup : up_name k ∈ files
    · by_cases hdown : down_name k ∈ files
      · simp only [check_pairs, if_pos hup, if_pos hdown] at h
        rcases List.mem_cons.mp hi with rfl | hr
        · exact ⟨hup, hdown⟩
        · exact check_pairs_none_inv files rest h i hr
      · simp only [check_pairs, if_pos hup, if_neg hdown] at h
        exact Option.noConfusion h
    · simp only [check_pairs, if_neg hup] at h
      exact Option.noConfusion h

theorem check_pairs_some_shape (files : List (List Char)) :
    ∀ (l : List Nat) (r : LoadResult), check_pairs files l = some r →
      ∃ j ∈ l, r = .missingUp j ∨ r = .missingDown j
  | [], r, h => by simp [check_pairs] at h
  | k :: rest, r, h => by
    by_cases hup : up_name k ∈ files
    · by_cases hdown : down_name k ∈ files
      · simp only [check_pairs, if_pos hup, if_pos hdown] at h
        rcases check_pairs_some_shape files rest r h with ⟨j, hj, hr⟩
        exact ⟨j, List.mem_cons_of_mem k hj, hr⟩
      · simp only [check_pairs, if_pos hup, if_neg hdown] at h
        cases h
        exact ⟨k, List.mem_cons_self k rest, Or.inr rfl⟩
    · simp only [check_pairs, if_neg hup] at h
      cases h
      exact ⟨k, List.mem_cons_self k rest, Or.inl rfl⟩

theorem isEmpty_false_of_ne_nil {files : List (List Char)} (hne : files ≠ []) :
    files.isEmpty = false := by
  cases files with
  | nil => exact absurd rfl hne
  | cons _ _ => rfl

theorem assert_eq_of_check_some (files : List (List Char))
    (hemp : files.isEmpty = false)
    (mx : Int) (hmx : get_max_migration_id files = some mx)
    (r : LoadResult) (hcp : check_pairs files (List.range' 1 mx.toNat) = some r) :
    assert_all_migrations_present files = r := by
  simp only [assert_all_migrations_present, hemp, hmx, hcp, Bool.false_eq_true,
    if_false]

theorem assert_ok_inv (files : List (List Char)) (n : Nat)
    (h : assert_all_migrations_present files = .ok n) :
    check_pairs files (List.range' 1 n) = none ∧
    ∀ f ∈ files, f ∈ expected_filenames n := by
  unfold assert_all_migrations_present at h
  by_cases hemp : files.isEmpty = true
  · rw [if_pos hemp] at h
    exact LoadResult.noConfusion h
  · rw [if_neg hemp] at h
    cases hmx : get_max_migration_id files with
    | none =>
      simp only [hmx] at h
      exact LoadResult.noConfusion h
    | some mx =>
      simp only [hmx] at h
      cases hcp : check_pairs files (List.range' 1 mx.toNat) with
      | some r =>
        simp only [hcp] at h
        rcases check_pairs_some_shape files _ r hcp with ⟨j, _, hr | hr⟩ <;>
          (rw [hr] at h; exact LoadResult.noConfusion h)
      | none =>
        simp only [hcp] at h
        by_cases hany :
            (files.any fun f => decide (f ∉ expected_filenames mx.toNat)) = true
        · rw [if_pos hany] at h
          exact LoadResult.noConfusion h
        · rw [if_neg hany] at h
          have hn : mx.toNat = n := by
            cases h
            rfl
          subst hn
          refine ⟨hcp, ?_⟩
          intro f hf
          by_contra hnot
          exact hany (List.any_eq_true.mpr ⟨f, hf, by simpa using hnot⟩)

/-- C6: for a non-empty directory listing whose ids parse (so `max_id`
exists), if any id in `1..max_id` lacks its up or its down file then
validation fails with a missing-pair error for some id in that range; a
validation that returns normally guarantees that the filenames are exactly
the up/down pairs for the contiguous range `1..N`; and when validation does
not return normally, `main` never consults the remote store (its outcome is
independent of the remote-listing oracle). -/
theorem load_validation (files : List (List Char)) (hne : files ≠ []) :
    (∀ (mx : Int), get_max_migration_id files = some mx →
      ∀ (i : Nat), 1 ≤ i → (i : Int) ≤ mx →
        (up_name i ∉ files ∨ down_name i ∉ files) →
        ∃ j : Nat, 1 ≤ j ∧ (j : Int) ≤ mx ∧
          (assert_all_migrations_present files = .missingUp j ∨
           assert_all_migrations_present files = .missingDown j)) ∧
    (∀ (n : Nat), assert_all_migrations_present files = .ok n →
      (∀ k : Nat, 1 ≤ k → k ≤ n → up_name k ∈ files ∧ down_name k ∈ files) ∧
      (∀ f ∈ files, f ∈ expected_filenames n)) ∧
    (∀ (rem1 rem2 : Unit → List Migration),
      (∀ n : Nat, assert_all_migrations_present files ≠ .ok n) →
      main_local_gate files rem1 = main_local_gate files rem2) := by
  refine ⟨?_, ?_, ?_⟩
  · intro mx hmx i h1 h2 hmiss
    have hrange : i ∈ List.range' 1 mx.toNat := by
      rw [List.mem_range'_1]
      constructor
      · exact h1
      · omega
    rcases check_pairs_finds files _ i hrange hmiss with ⟨j, hj, hcp | hcp⟩ <;>
      have hjb := List.mem_range'_1.mp hj
    · exact ⟨j, hjb.1, by omega,
        Or.inl (assert_eq_of_check_some files (isEmpty_false_of_ne_nil hne)
          mx hmx _ hcp)⟩
    · exact ⟨j, hjb.1, by omega,
        Or.inr (assert_eq_of_check_some files (isEmpty_false_of_ne_nil hne)
          mx hmx _ hcp)⟩
  · intro n hok
    rcases assert_ok_inv files n hok with ⟨hcp, hexp⟩
    refine ⟨?_, hexp⟩
    intro k hk1 hk2
    exact check_pairs_none_inv files _ hcp k
      (List.mem_range'_1.mpr ⟨hk1, by omega⟩)
  · intro rem1 rem2 hnotok
    cases hres : assert_all_migrations_present files with
    | ok n => exact absurd hres (hnotok n)
    | emptyExit => simp [main_local_gate, hres]
    | malformedExit => simp [main_local_gate, hres]
    | missingUp j => simp [main_local_gate, hres]
    | missingDown j => simp [main_local_gate, hres]
    | extraFilesExit => simp [main_local_gate, hres]

/-- Witness for C6: in a directory holding `1_up.sql`, `1_down.sql` and
`2_up.sql` (max id 2, down file of id 2 missing), validation fails with a
missing-pair error for an id in `1..2`. -/
theorem load_validation_witness :
    ∃ j : Nat, 1 ≤ j ∧ (j : Int) ≤ 2 ∧
      (assert_all_migrations_present c6_files = .missingUp j ∨
       assert_all_migrations_present c6_files = .missingDown j) :=
  (load_validation c6_files (by decide)).1 2 (by decide) 2 (by decide) (by decide)
    (Or.inr (by decide))

/-- C7 (amended): when every id in `1..max_id` has both of its files, a
`.sql` file that matches no `{id}_up.sql` / `{id}_down.sql` name for ids
`1..max_id` makes validation fail with the unexpected-file error.  (Files not
ending in `.sql` are ignored by the listing; an unparseable `.sql` filename
aborts earlier with the malformed-filename error; and a missing pair is
reported in preference to the extra file — see the counterexample.) -/
theorem assert_extra_file_error (files : List (List Char)) (hne : files ≠ [])
    (mx : Int) (hmx : get_max_migration_id files = some mx)
    (hpairs : ∀ i : Nat, 1 ≤ i → (i : Int) ≤ mx →
      up_name i ∈ files ∧ down_name i ∈ files)
    (f : List Char) (hf : f ∈ files) (hnot : f ∉ expected_filenames mx.toNat) :
    assert_all_migrations_present files = .extraFilesExit := by
  have hemp := isEmpty_false_of_ne_nil hne
  have hcp : check_pairs files (List.range' 1 mx.toNat) = none :=
    check_pairs_none_of_present files _ (fun i hi => by
      have hb := List.mem_range'_1.mp hi
      exact hpairs i hb.1 (by omega))
  have hany : (files.any fun g => decide (g ∉ expected_filenames mx.toNat)) = true :=
    List.any_eq_true.mpr ⟨f, hf, by simpa using hnot⟩
  simp only [assert_all_migrations_present, hemp, hmx, hcp, hany,
    Bool.false_eq_true, if_false, if_true]

/-- Witness for C7 (amended): `1_up.sql`, `1_down.sql` plus the stray
`0_up.sql` (id outside `1..1`) fail with the unexpected-file error. -/
theorem assert_extra_file_error_witness :
    assert_all_migrations_present c7_files = .extraFilesExit :=
  assert_extra_file_error c7_files (by decide) 1 (by decide)
    (fun i h1 h2 => by
      have hi1 : i = 1 := by omega
      subst hi1
      exact ⟨by decide, by decide⟩)
    "0_up.sql".data (by decide) (by decide)

/-- Counterexample for C7 as frozen: a directory containing the pair for id 1
plus `2_foo.sql` — a `.sql` file matching no pattern for ids `1..2` — fails
with a missing-pair error, not the unexpected-file error; a non-`.sql` file
(`notes.txt`) that matches no pattern loads successfully; and an unparseable
`.sql` name (`readme.sql`) fails with the malformed-filename error instead. -/
theorem unexpected_file_cex :
    assert_all_migrations_present
        (get_migration_files_filtered
          ["1_up.sql".data, "1_down.sql".data, "2_foo.sql".data]) = .missingUp 2 ∧
    "2_foo.sql".data ∉ expected_filenames 2 ∧
    assert_all_migrations_present
        (get_migration_files_filtered
          ["1_up.sql".data, "1_down.sql".data, "notes.txt".data]) = .ok 1 ∧
    "notes.txt".data ∉ expected_filenames 1 ∧
    assert_all_migrations_present
        (get_migration_files_filtered
          ["1_up.sql".data, "1_down.sql".data, "readme.sql".data])
      = .malformedExit := by
  decide

/-! ### Claim theorems: marker keys -/

theorem digitChar_isDigit : ∀ d : Nat, d < 10 → (digitChar d).isDigit = true := by
  decide

theorem digitChar_val : ∀ d : Nat, d < 10 → (digitChar d).toNat - 48 = d := by
  decide

theorem natDigitsGo_digits :
    ∀ (fuel n : Nat), ∀ c ∈ natDigitsGo fuel n, c.isDigit = true
  | 0, n => by simp [natDigitsGo]
  | fuel + 1, n => by
    simp only [natDigitsGo]
    by_cases h : n < 10
    · rw [if_pos h]
      intro c hc
      rw [List.mem_singleton.mp hc]
      exact digitChar_isDigit n h
    · rw [if_neg h]
      intro c hc
      rcases List.mem_append.mp hc with hc1 | hc2
      · exact natDigitsGo_digits fuel (n / 10) c hc1
      · rw [List.mem_singleton.mp hc2]
        exact digitChar_isDigit _ (Nat.mod_lt n (by omega))

theorem natDigitsGo_val :
    ∀ (fuel n : Nat), n < fuel → ∀ (acc : Nat),
      (natDigitsGo fuel n).foldl (fun a c => a * 10 + (c.toNat - 48)) acc =
        acc * 10 ^ (natDigitsGo fuel n).length + n
  | 0, n, h, acc => by omega
  | fuel + 1, n, h, acc => by
    by_cases hn : n < 10
    · simp only [natDigitsGo, if_pos hn, List.foldl_cons, List.foldl_nil,
        List.length_singleton, pow_one]
      rw [digitChar_val n hn]
    · have h10 : n / 10 < fuel := by
        have := Nat.div_lt_self (by omega : 0 < n) (by omega : 1 < 10)
        omega
      simp only [natDigitsGo, if_neg hn, List.foldl_append, List.foldl_cons,
        List.foldl_nil, List.length_append, List.length_singleton]
      rw [natDigitsGo_val fuel (n / 10) h10 acc,
        digitChar_val _ (Nat.mod_lt n (by omega)), pow_succ, ← Nat.mul_assoc]
      have key : ∀ t : Nat, (t + n / 10) * 10 + n % 10 = t * 10 + n := by
        intro t
        omega
      exact key _

theorem digitsVal_natDigits (n : Nat) : digitsVal (natDigits n) = n := by
  unfold digitsVal natDigits
  rw [natDigitsGo_val (n + 1) n (Nat.lt_succ_self n) 0]
  simp

theorem natDigits_ne_nil (n : Nat) : natDigits n ≠ [] := by
  by_cases h : n < 10
  · simp [natDigits, natDigitsGo, h]
  · simp [natDigits, natDigitsGo, h]

theorem natDigits_digits (n : Nat) : ∀ c ∈ natDigits n, c.isDigit = true :=
  natDigitsGo_digits (n + 1) n

theorem pyDigitsCore_digits :
    ∀ (l : List Char) (acc : Nat), (∀ c ∈ l, c.isDigit = true) →
      pyDigitsCore l acc =
        some (l.foldl (fun a c => a * 10 + (c.toNat - 48)) acc)
  | [], _, _ => rfl
  | c :: rest, acc, h => by
    have hc := h c (List.mem_cons_self c rest)
    have hstep : pyDigitsCore (c :: rest) acc
        = pyDigitsCore rest (acc * 10 + (c.toNat - 48)) := by
      conv_lhs => unfold pyDigitsCore
      rw [if_pos hc]
    rw [hstep, List.foldl_cons]
    exact pyDigitsCore_digits rest _ (fun d hd => h d (List.mem_cons_of_mem c hd))

theorem pyDigitsVal?_digits (l : List Char) (hne : l ≠ [])
    (h : ∀ c ∈ l, c.isDigit = true) : pyDigitsVal? l = some (digitsVal l) := by
  cases l with
  | nil => exact absurd rfl hne
  | cons c rest =>
    have hc := h c (List.mem_cons_self c rest)
    simp only [pyDigitsVal?, if_pos hc]
    rw [pyDigitsCore_digits rest _ (fun d hd => h d (List.mem_cons_of_mem c hd))]
    simp [digitsVal]

theorem dropWhile_eq_self_of_not (p : Char → Bool) :
    ∀ (l : List Char), (∀ c ∈ l, p c = false) → l.dropWhile p = l
  | [], _ => rfl
  | c :: rest, h => by
    simp [List.dropWhile_cons, h c (List.mem_cons_self c rest)]

theorem py_strip_chars_eq_self (cs l : List Char)
    (h : ∀ c ∈ l, decide (c ∈ cs) = false) : py_strip_chars cs l = l := by
  unfold py_strip_chars
  rw [dropWhile_eq_self_of_not _ l h,
    dropWhile_eq_self_of_not _ l.reverse (fun c hc => h c (List.mem_reverse.mp hc))]
  exact List.reverse_reverse l

theorem digit_not_ws (c : Char) (h : c.isDigit = true) :
    decide (c ∈ pyWhitespace) = false := by
  simp only [pyWhitespace, decide_eq_false_iff_not, List.mem_cons,
    List.not_mem_nil, or_false]
  rintro (rfl | rfl | rfl | rfl | rfl | rfl) <;> exact absurd h (by decide)

theorem digit_ne_char (c : Char) (h : c.isDigit = true) (d : Char)
    (hd : d.isDigit = false) : c ≠ d := by
  rintro rfl
  rw [h] at hd
  exact Bool.noConfusion hd

theorem pyInt?_of_digits (l : List Char) (hne : l ≠ [])
    (h : ∀ c ∈ l, c.isDigit = true) :
    pyInt? l = some ((digitsVal l : Nat) : Int) := by
  have hstrip : py_strip_chars pyWhitespace l = l :=
    py_strip_chars_eq_self _ _ (fun c hc => digit_not_ws c (h c hc))
  cases l with
  | nil => exact absurd rfl hne
  | cons c rest =>
    have hc := h c (List.mem_cons_self c rest)
    unfold pyInt?
    rw [hstrip]
    split
    · rename_i r heq
      have : c = '-' := (List.cons.injEq _ _ _ _ ▸ heq).1
      exact absurd this (digit_ne_char c hc '-' (by decide))
    · rename_i r heq
      have : c = '+' := (List.cons.injEq _ _ _ _ ▸ heq).1
      exact absurd this (digit_ne_char c hc '+' (by decide))
    · rw [pyDigitsVal?_digits _ (by simp) h]
      rfl

theorem pyInt?_natDigits (n : Nat) : pyInt? (natDigits n) = some (n : Int) := by
  rw [pyInt?_of_digits (natDigits n) (natDigits_ne_nil n) (natDigits_digits n),
    digitsVal_natDigits]

theorem pySplit_no_sep (sep : Char) :
    ∀ (l : List Char), (∀ c ∈ l, c ≠ sep) → pySplit sep l = [l]
  | [], _ => rfl
  | c :: rest, h => by
    have hc := h c (List.mem_cons_self c rest)
    simp only [pySplit, if_neg hc]
    rw [pySplit_no_sep sep rest (fun d hd => h d (List.mem_cons_of_mem c hd))]

theorem pySplit_append_sep (sep : Char) :
    ∀ (a r : List Char), (∀ c ∈ a, c ≠ sep) →
      pySplit sep (a ++ sep :: r) = a :: pySplit sep r
  | [], r, _ => by simp [pySplit]
  | c :: a', r, h => by
    have hc := h c (List.mem_cons_self c a')
    simp only [List.cons_append, pySplit, if_neg hc]
    rw [List.append_eq,
      pySplit_append_sep sep a' r (fun d hd => h d (List.mem_cons_of_mem c hd))]

theorem suffix_of_append_right {s a b : List Char} (h : s <:+ a ++ b)
    (hlen : s.length ≤ b.length) : s <:+ b := by
  rcases h with ⟨t, ht⟩
  have hlen2 : a.length ≤ t.length := by
    have := congrArg List.length ht
    simp only [List.length_append] at this
    omega
  refine ⟨t.drop a.length, ?_⟩
  have h2 : (t ++ s).drop a.length = (a ++ b).drop a.length := by rw [ht]
  rw [List.drop_append_of_le_length hlen2, List.drop_left] at h2
  exact h2

/-- C8 (amended): marker keys round-trip through
`get_migration_prefix`/`parse_migration_prefix` for positive ids and
colon-free digests *provided* the down digest does not itself end in
`_down.sql` (else the up key's parse strips that ending too — see the
counterexample); and parsing any key whose prefix- and suffix-stripped
remainder does not split into exactly three colon-separated parts fails
with the corrupt-marker error whenever the first part converts with `int`
(when it does not, the `int` conversion `ValueError` preempts the
corrupt-marker assertion — see the counterexample). -/
theorem marker_key_roundtrip (pfx : List Char) (m : Migration)
    (hid : 0 < m.migration_id)
    (hup : ∀ c ∈ m.up_digest, c ≠ ':')
    (hdown : ∀ c ∈ m.down_digest, c ≠ ':')
    (hsuf : ¬ ("_down.sql".data <:+ m.down_digest)) :
    parse_migration_prefix pfx (marker_up_key pfx m) =
      .ok m.migration_id m.up_digest m.down_digest ∧
    parse_migration_prefix pfx (marker_down_key pfx m) =
      .ok m.migration_id m.up_digest m.down_digest ∧
    (∀ (q filename p0 : List Char) (rest : List (List Char)) (n : Int),
      pySplit FILE_DELIM (marker_key_remainder q filename) = p0 :: rest →
      pyInt? p0 = some n →
      (p0 :: rest).length ≠ 3 →
      parse_migration_prefix q filename = .corruptMarker) := by
  have hidc : intDecimal m.migration_id = natDigits m.migration_id.toNat := by
    unfold intDecimal
    rw [if_neg (by omega)]
  have hidc_digits : ∀ c ∈ natDigits m.migration_id.toNat, c.isDigit = true :=
    natDigits_digits _
  have hidc_ne_colon : ∀ c ∈ natDigits m.migration_id.toNat, c ≠ ':' :=
    fun c hc => digit_ne_char c (hidc_digits c hc) ':' (by decide)
  have hic : get_migration_prefix pfx m =
      pfx ++ (natDigits m.migration_id.toNat ++
        ':' :: (m.up_digest ++ ':' :: m.down_digest)) := by
    unfold get_migration_prefix
    rw [hidc]
    simp [List.intercalate, List.intersperse, FILE_DELIM, List.append_assoc]
  have hsplit : pySplit ':' (natDigits m.migration_id.toNat ++
      ':' :: (m.up_digest ++ ':' :: m.down_digest)) =
      [natDigits m.migration_id.toNat, m.up_digest, m.down_digest] := by
    rw [pySplit_append_sep ':' _ _ hidc_ne_colon,
      pySplit_append_sep ':' _ _ hup,
      pySplit_no_sep ':' m.down_digest hdown]
  have hint : pyInt? (natDigits m.migration_id.toNat) = some m.migration_id := by
    rw [pyInt?_natDigits]
    congr 1
    omega
  have hnosuf : ¬ ("_down.sql".data <:+ natDigits m.migration_id.toNat ++
      ':' :: (m.up_digest ++ ':' :: m.down_digest)) := by
    intro hs
    have hshape : natDigits m.migration_id.toNat ++
        ':' :: (m.up_digest ++ ':' :: m.down_digest) =
        (natDigits m.migration_id.toNat ++ ':' :: m.up_digest) ++
          ':' :: m.down_digest := by
      simp [List.append_assoc]
    rw [hshape] at hs
    have hb2 : (':' :: m.down_digest) <:+
        (natDigits m.migration_id.toNat ++ ':' :: m.up_digest) ++
          ':' :: m.down_digest := List.suffix_append _ _
    rcases List.suffix_or_suffix_of_suffix hs hb2 with h1 | h2
    · have hlen := h1.length_le
      have hlen9 : ("_down.sql".data).length = 9 := rfl
      simp only [List.length_cons, hlen9] at hlen
      by_cases hd9 : 9 ≤ m.down_digest.length
      · have h1' : "_down.sql".data <:+ [':'] ++ m.down_digest := h1
        exact hsuf (suffix_of_append_right h1' (by rw [hlen9]; omega))
      · have hlen8 : m.down_digest.length = 8 := by omega
        have heq : "_down.sql".data = ':' :: m.down_digest :=
          h1.eq_of_length (by simp [hlen9, hlen8])
        injection heq with h01 h02
        exact absurd h01 (by decide)
    · have hmemc : (':' : Char) ∈ "_down.sql".data :=
        h2.subset (List.mem_cons_self _ _)
      exact absurd hmemc (by decide)
  refine ⟨?_, ?_, ?_⟩
  · have hkey : marker_up_key pfx m =
        pfx ++ ((natDigits m.migration_id.toNat ++
          ':' :: (m.up_digest ++ ':' :: m.down_digest)) ++ "_up.sql".data) := by
      unfold marker_up_key
      rw [hic]
      simp [List.append_assoc]
    have hrem : marker_key_remainder pfx (marker_up_key pfx m) =
        natDigits m.migration_id.toNat ++
          ':' :: (m.up_digest ++ ':' :: m.down_digest) := by
      rw [hkey]
      unfold marker_key_remainder
      dsimp only
      rw [if_pos (decide_eq_true (List.prefix_append _ _)), List.drop_left]
      rw [if_pos (decide_eq_true (List.suffix_append _ _))]
      have hl7 : ((natDigits m.migration_id.toNat ++
          ':' :: (m.up_digest ++ ':' :: m.down_digest)) ++ "_up.sql".data).length - 7 =
          (natDigits m.migration_id.toNat ++
            ':' :: (m.up_digest ++ ':' :: m.down_digest)).length := by
        have h7 : ("_up.sql".data).length = 7 := rfl
        simp only [List.length_append, List.length_cons, h7]
        omega
      rw [hl7, List.take_left]
      rw [if_neg (by rw [decide_eq_true_eq]; exact hnosuf)]
    unfold parse_migration_prefix
    rw [hrem, show FILE_DELIM = ':' from rfl, hsplit]
    simp only [hint]
  · have hkey : marker_down_key pfx m =
        pfx ++ ((natDigits m.migration_id.toNat ++
          ':' :: (m.up_digest ++ ':' :: m.down_digest)) ++ "_down.sql".data) := by
      unfold marker_down_key
      rw [hic]
      simp [List.append_assoc]
    have hrem : marker_key_remainder pfx (marker_down_key pfx m) =
        natDigits m.migration_id.toNat ++
          ':' :: (m.up_digest ++ ':' :: m.down_digest) := by
      rw [hkey]
      unfold marker_key_remainder
      dsimp only
      rw [if_pos (decide_eq_true (List.prefix_append _ _)), List.drop_left]
      have hnot7 : ¬ ("_up.sql".data <:+ (natDigits m.migration_id.toNat ++
          ':' :: (m.up_digest ++ ':' :: m.down_digest)) ++ "_down.sql".data) := by
        intro h7
        rcases List.suffix_or_suffix_of_suffix h7
          (List.suffix_append _ "_down.sql".data) with h1 | h2
        · exact absurd h1 (by decide)
        · exact absurd h2 (by decide)
      have hcond2 : ¬ (decide ("_up.sql".data <:+ (natDigits m.migration_id.toNat ++
          ':' :: (m.up_digest ++ ':' :: m.down_digest)) ++ "_down.sql".data) = true) := by
        rw [decide_eq_true_eq]
        exact hnot7
      rw [if_neg hcond2]
      rw [if_pos (decide_eq_true (List.suffix_append _ _))]
      have hl9 : ((natDigits m.migration_id.toNat ++
          ':' :: (m.up_digest ++ ':' :: m.down_digest)) ++ "_down.sql".data).length - 9 =
          (natDigits m.migration_id.toNat ++
            ':' :: (m.up_digest ++ ':' :: m.down_digest)).length := by
        have h9 : ("_down.sql".data).length = 9 := rfl
        simp only [List.length_append, List.length_cons, h9]
        omega
      rw [hl9, List.take_left]
    unfold parse_migration_prefix
    rw [hrem, show FILE_DELIM = ':' from rfl, hsplit]
    simp only [hint]
  · intro q filename p0 rest n hsp hint2 hlen3
    unfold parse_migration_prefix
    rw [hsp]
    simp only [hint2]
    rcases rest with _ | ⟨a, _ | ⟨b, _ | ⟨c, t⟩⟩⟩
    · rfl
    · rfl
    · simp at hlen3
    · rfl

/-- Witness for C8 (amended): the keys of migration 7 with digests `abc` /
`def` under prefix `migrations/` parse back to exactly `(7, abc, def)`, and
the key `12:ab_up.sql` — whose stripped remainder `12:ab` splits into two
parts with an integer first part — fails with the corrupt-marker error. -/
theorem marker_key_roundtrip_witness :
    parse_migration_prefix c8_pfx (marker_up_key c8_pfx c8_mig)
        = .ok 7 "abc".data "def".data ∧
    parse_migration_prefix c8_pfx (marker_down_key c8_pfx c8_mig)
        = .ok 7 "abc".data "def".data ∧
    parse_migration_prefix [] "12:ab_up.sql".data = .corruptMarker := by
  have h := marker_key_roundtrip c8_pfx c8_mig (by decide) (by decide) (by decide)
    (by decide)
  refine ⟨h.1, h.2.1, ?_⟩
  exact h.2.2 [] "12:ab_up.sql".data "12".data ["ab".data] 12 (by decide) (by decide)
    (by decide)

/-- Counterexample for C8 as frozen: with the colon-free down digest
`x_down.sql`, the up key parses back to `(1, a, x)` instead of
`(1, a, x_down.sql)` (the parse also strips the digest's own `_down.sql`
ending); and the key `garbage_up.sql`, whose remainder has one part rather
than three, raises the `int` conversion `ValueError`, not the corrupt-marker
assertion. -/
theorem marker_parse_cex :
    parse_migration_prefix []
        (marker_up_key [] ⟨1, "a".data, "x_down.sql".data, none, none⟩) =
      .ok 1 "a".data "x".data ∧
    "x".data ≠ "x_down.sql".data ∧
    parse_migration_prefix [] "garbage_up.sql".data = .intValueError ∧
    ParseResult.intValueError ≠ ParseResult.corruptMarker := by
  decide
